import Mathlib

/-!
Verification of the tabular correlation dashboard (`src/main.py`).

The file shallowly embeds the three functions that carry the logic of the
program: `load_and_preprocess_data` (loading, column-name normalization,
gender-indicator derivation, numeric coercion and median imputation),
`calculate_correlation` (Pearson correlation matrix of the normalized
table) and `get_extreme_correlations` (selection of the strongest
positive / negative off-diagonal correlation pair).

Numeric cell values are modelled with `ℚ` (the program manipulates
floating point numbers through pandas; the claims under study are about
the exact arithmetic the code expresses, not about rounding).  A pandas
`NaN` is modelled with `Option.none`.
-/

namespace Askjda

/-! ### Small string utilities (models of `str.lower`, `str.replace(' ','')`
and the python `in` substring test) -/

/-- Model of python `str.lower()` applied to a column name. -/
def lowerStr (s : String) : String := ⟨s.data.map Char.toLower⟩

/-- Model of python `str.replace(' ', '')`. -/
def despace (s : String) : String := ⟨s.data.filter (fun c => c ≠ ' ')⟩

/-- `leadsWith pat l` is true when `pat` is an initial segment of `l`. -/
def leadsWith : List Char → List Char → Bool
  | [], _ => true
  | _ :: _, [] => false
  | a :: as, b :: bs => a = b && leadsWith as bs

/-- `hasSub pat l` is true when `pat` occurs contiguously inside `l`. -/
def hasSub (pat : List Char) : List Char → Bool
  | [] => leadsWith pat []
  | c :: t => leadsWith pat (c :: t) || hasSub pat t

/-- Model of the python substring test `pat in s`. -/
def strContains (s pat : String) : Bool := hasSub pat.data s.data

/-- Column-name normalization of line 37 of `main.py`:
`df.columns.str.lower().str.replace(' ', '', regex=False)`. -/
def normalizeName (s : String) : String := despace (lowerStr s)

/-- The test of line 42 of `main.py`: `'sex' in col or 'gender' in col`. -/
def isGenderName (s : String) : Bool := strContains s "sex" || strContains s "gender"

/-! ### Cells and tables -/

/-- One cell of the loaded spreadsheet: a numeric value, a text value, or
a missing entry (pandas `NaN`). -/
inductive Cell where
  | num (q : ℚ)
  | str (s : String)
  | missing
  deriving DecidableEq

/-- An input table: named columns of cells, in sheet order. -/
structure Table where
  cols : List (String × List Cell)
  deriving DecidableEq

/-- The gender mapping of line 47 of `main.py`:
`df[sex_col].astype(str).str.lower().map({'female': 1, 'male': 0})`.
`astype(str)` renders a number or a missing entry as a string that is
never `"female"`/`"male"`, so those cells map to `NaN` (`none`). -/
def mapGender : Cell → Option ℚ
  | Cell.str s =>
      if lowerStr s = "female" then some 1
      else if lowerStr s = "male" then some 0
      else none
  | Cell.num _ => none
  | Cell.missing => none

/-- Decimal-literal parser modelling the string case of
`pd.to_numeric(..., errors='coerce')`: optional sign, digits, optional
fractional part; anything else is unparseable (`none`). -/
def parseDigits : List Char → Option ℕ
  | [] => some 0
  | c :: t =>
      if c.isDigit then
        (parseDigits t).map (fun n => (c.toNat - 48) * 10 ^ t.length + n)
      else none

/-- Split a character list at the first `'.'`, if any. -/
def splitDot : List Char → (List Char × Option (List Char))
  | [] => ([], none)
  | c :: t =>
      if c = '.' then ([], some t)
      else
        let r := splitDot t
        (c :: r.1, r.2)

/-- Parse a decimal string into a rational, as `pd.to_numeric` would. -/
def parseRat (s : String) : Option ℚ :=
  let cs := s.data
  let signed : ℚ × List Char :=
    match cs with
    | '-' :: r => (-1, r)
    | '+' :: r => (1, r)
    | r => (1, r)
  let (ip, fp?) := splitDot signed.2
  match fp? with
  | none =>
      match ip, parseDigits ip with
      | [], _ => none
      | _, some n => some (signed.1 * n)
      | _, none => none
  | some fp =>
      if ip = [] ∧ fp = [] then none
      else
        match parseDigits ip, parseDigits fp with
        | some n, some m => some (signed.1 * ((n : ℚ) + (m : ℚ) / 10 ^ fp.length))
        | _, _ => none

/-- Model of `pd.to_numeric(col, errors='coerce')` on one cell. -/
def toNumeric : Cell → Option ℚ
  | Cell.num q => some q
  | Cell.missing => none
  | Cell.str s => parseRat s

/-- Model of `Series.median()` (missing entries are dropped by the caller
beforehand): `NaN` on an empty series, the middle element for odd length,
the mean of the two middle elements for even length. -/
def median (l : List ℚ) : Option ℚ :=
  let s := l.insertionSort (fun a b => a ≤ b)
  if l = [] then none
  else if l.length % 2 = 1 then some (s.getD (l.length / 2) 0)
  else some ((s.getD (l.length / 2 - 1) 0 + s.getD (l.length / 2) 0) / 2)

/-! ### The Loader/Normalizer (`load_and_preprocess_data`, lines 21-72) -/

/-- Candidate numeric columns, line 10 of `main.py`. -/
def STANDARD_COLS : List String := ["pclass", "age", "sibsp", "parch", "fare"]

/-- Lines 47-48 of `main.py`: map the gender column and fill the missing
results with the mapped column's median (when that median is defined;
`fillna(NaN)` is a no-op when the median itself is `NaN`). -/
def sexNumericCells (cs : List Cell) : List Cell :=
  match median ((cs.map mapGender).filterMap id) with
  | some m => (cs.map mapGender).map (fun o => Cell.num (o.getD m))
  | none =>
      (cs.map mapGender).map (fun o =>
        match o with
        | some q => Cell.num q
        | none => Cell.missing)

/-- DataFrame column assignment `df[n] = v`: replace the column in place
when the name exists, append it otherwise. -/
def setCol (cols : List (String × List Cell)) (n : String) (v : List Cell) :
    List (String × List Cell) :=
  if cols.any (fun p => p.1 = n) then
    cols.map (fun p => if p.1 = n then (n, v) else p)
  else cols ++ [(n, v)]

/-- Line 37 of `main.py`: normalized column names. -/
def normCols (t : Table) : List (String × List Cell) :=
  t.cols.map (fun p => (normalizeName p.1, p.2))

/-- Lines 40-44 of `main.py`: the first column whose name contains
`"sex"` or `"gender"`. -/
def findSexCol (t : Table) : Option (String × List Cell) :=
  (normCols t).find? (fun p => isGenderName p.1)

/-- The DataFrame after lines 46-48: the gender indicator column
`sex_numeric` is assigned when a gender-like column was found. -/
def dfCols (t : Table) : List (String × List Cell) :=
  match findSexCol t with
  | some pc => setCol (normCols t) "sex_numeric" (sexNumericCells pc.2)
  | none => normCols t

/-- Lines 53-55 of `main.py`: `numeric_analysis_cols`. -/
def selectedCols (t : Table) : List String :=
  (STANDARD_COLS.filter (fun c => (dfCols t).any (fun p => p.1 = c))) ++
    (if (dfCols t).any (fun p => p.1 = "sex_numeric") then ["sex_numeric"] else [])

/-- `df[c]` by first matching name (pandas columns are unique: `read_excel`
renames duplicate headers). -/
def getCol (cols : List (String × List Cell)) (c : String) : List Cell :=
  (((cols.find? (fun p => p.1 = c)).map (fun p => p.2)).getD [])

/-- Lines 63-70 of `main.py`, for one selected column: numeric coercion,
median, and either fill (median defined) or drop (`none`). -/
def processCol (cells : List Cell) : Option (List ℚ) :=
  match median ((cells.map toNumeric).filterMap id) with
  | none => none
  | some m => some ((cells.map toNumeric).map (fun o => o.getD m))

/-- Status / warning / error texts surfaced to the user. -/
def noSexWarning : String := "warning: sex or gender column not found"

def noColsError : String := "error: no usable numeric analysis columns"

def dropWarning (c : String) : String := "warning: column dropped (all values missing or non-numeric): " ++ c

def fileError (p : String) : String := "error: cannot read file: " ++ p

/-- The table part of the loader's result (`None` vs `processed_df`). -/
def loadOutput (t : Table) : Option (List (String × List ℚ)) :=
  if selectedCols t = [] then none
  else
    some ((selectedCols t).filterMap
      (fun c => (processCol (getCol (dfCols t) c)).map (fun v => (c, v))))

/-- The user-visible messages emitted while loading. -/
def loadMessages (t : Table) : List String :=
  (match findSexCol t with
   | none => [noSexWarning]
   | some _ => []) ++
  (if selectedCols t = [] then [noColsError]
   else ((selectedCols t).filter
       (fun c => processCol (getCol (dfCols t) c) = none)).map dropWarning)

/-- Result of the loader: the optional normalized table plus messages. -/
structure LoadResult where
  output : Option (List (String × List ℚ))
  messages : List String
  deriving DecidableEq

/-- Lines 36-72 of `main.py`: normalization of an already-read table. -/
def loadTable (t : Table) : LoadResult :=
  ⟨loadOutput t, loadMessages t⟩

/-- Lines 21-72 of `main.py`.  The file system is modelled by `env`,
mapping a path to the table it holds, or `none` when the file cannot be
located or read (both `except` branches of lines 29-34 return `None`). -/
def load_and_preprocess_data (env : String → Option Table) (path : String) : LoadResult :=
  match env path with
  | none => ⟨none, [fileError path]⟩
  | some t => loadTable t

/-! ### The correlation matrix (`calculate_correlation`, lines 77-79)

`df.corr()` computes the Pearson coefficient of each pair of columns.
With deviations `dx i = x i - mean x`, the coefficient is
`(Σ dx*dy) / (sqrt (Σ dx^2) * sqrt (Σ dy^2))`, and pandas produces `NaN`
exactly when the divisor is zero (a constant or empty column).  The
inputs come from the loader, hence carry no missing values. -/

/-- Mean of a column (`0` on an empty column; the empty case only feeds
entries that are `none` anyway, since the deviation sums are then `0`). -/
def meanL (l : List ℚ) : ℚ := l.sum / (l.length : ℚ)

/-- Deviations from the mean. -/
def devs (l : List ℚ) : List ℚ := l.map (fun q => q - meanL l)

/-- Sum of squared deviations (the numerator of the variance). -/
def sqDevSum (l : List ℚ) : ℚ := ((devs l).map (fun q => q ^ 2)).sum

/-- Sum of products of deviations (the numerator of the covariance). -/
def covSum (x y : List ℚ) : ℚ :=
  (List.zipWith (fun p q => p * q) (devs x) (devs y)).sum

/-- One entry of `df.corr()`: `none` models pandas `NaN`. -/
noncomputable def corrEntry (x y : List ℚ) : Option ℝ :=
  if sqDevSum x * sqDevSum y = 0 then none
  else some ((covSum x y : ℝ) / Real.sqrt ((sqDevSum x : ℚ) * sqDevSum y))

/-- The correlation matrix: labels plus an entry function over positions. -/
structure CorrMatrixR where
  names : List String
  entry : ℕ → ℕ → Option ℝ

/-- Column `i` of a normalized table. -/
def colAt (out : List (String × List ℚ)) (i : ℕ) : List ℚ :=
  (out.getD i ("", [])).2

/-- Lines 77-79 of `main.py`: `df.corr()` on the loader's output. -/
noncomputable def calculate_correlation (out : List (String × List ℚ)) : CorrMatrixR :=
  { names := out.map (fun p => p.1)
    entry := fun i j => corrEntry (colAt out i) (colAt out j) }

/-! ### The Extremum Selector (`get_extreme_correlations`, lines 81-97)

The selector receives an arbitrary correlation matrix.  Its entries are
modelled over `ℚ` with `none` for `NaN` so that the selector stays
executable; `unstack` reproduces the pandas flattening order (outer
level = column label, inner level = row label), the filter of line 86
compares the two index *labels*, `pairs[pairs > 0]` drops `NaN` entries,
and `nlargest(1)` / `nsmallest(1)` keep the first occurrence of the
extreme value (pandas `keep='first'`). -/

/-- A correlation matrix as handed to the selector: `rows r c` layout. -/
structure CorrMat where
  names : List String
  rows : List (List (Option ℚ))
  deriving DecidableEq

/-- `corr_matrix.unstack()` (line 84): entries `((column, row), value)`
listed column-major. -/
def unstack (m : CorrMat) : List ((String × String) × Option ℚ) :=
  (List.range m.names.length).flatMap (fun ci =>
    (List.range m.names.length).map (fun ri =>
      ((m.names.getD ci "", m.names.getD ri ""), (m.rows.getD ri []).getD ci none)))

/-- Line 86: discard entries whose two index labels coincide. -/
def offDiagPairs (m : CorrMat) : List ((String × String) × Option ℚ) :=
  (unstack m).filter (fun p => p.1.1 ≠ p.1.2)

/-- The elementwise test of `pairs[pairs > 0]`: a `NaN` comparison is
false, so `none` entries are discarded. -/
def posFilter (p : (String × String) × Option ℚ) : Option ((String × String) × ℚ) :=
  match p.2 with
  | some v => if 0 < v then some (p.1, v) else none
  | none => none

/-- The elementwise test of `pairs[pairs < 0]`. -/
def negFilter (p : (String × String) × Option ℚ) : Option ((String × String) × ℚ) :=
  match p.2 with
  | some v => if v < 0 then some (p.1, v) else none
  | none => none

/-- `pairs[pairs > 0]` (line 89): keep defined, strictly positive values. -/
def posCands (m : CorrMat) : List ((String × String) × ℚ) :=
  (offDiagPairs m).filterMap posFilter

/-- `pairs[pairs < 0]` (line 91): keep defined, strictly negative values. -/
def negCands (m : CorrMat) : List ((String × String) × ℚ) :=
  (offDiagPairs m).filterMap negFilter

/-- `nlargest(1)` with `keep='first'`: the first element attaining the
maximum value (an element is displaced only by a strictly larger one). -/
def firstMax : List ((String × String) × ℚ) → Option ((String × String) × ℚ)
  | [] => none
  | p :: rest =>
      match firstMax rest with
      | none => some p
      | some q => if p.2 < q.2 then some q else some p

/-- `nsmallest(1)` with `keep='first'`: the first element attaining the
minimum value. -/
def firstMin : List ((String × String) × ℚ) → Option ((String × String) × ℚ)
  | [] => none
  | p :: rest =>
      match firstMin rest with
      | none => some p
      | some q => if q.2 < p.2 then some q else some p

/-- Lines 81-97 of `main.py`; `none` models the `(None, None, None)`
return. -/
def get_extreme_correlations (m : CorrMat) (is_positive : Bool) :
    Option (String × String × ℚ) :=
  match (if is_positive then firstMax (posCands m) else firstMin (negCands m)) with
  | none => none
  | some pv => some (pv.1.1, pv.1.2, pv.2)

/-! ### Helper lemmas: lists and medians -/

lemma getD_mem_of_lt {l : List ℚ} {i : ℕ} (d : ℚ) (h : i < l.length) :
    l.getD i d ∈ l := by
  rw [List.getD_eq_getElem l d h]
  exact List.getElem_mem h

lemma median_eq_none_iff (l : List ℚ) : median l = none ↔ l = [] := by
  by_cases h : l = []
  · simp [median, h]
  · simp only [median, h, if_false]
    split <;> simp [h]

lemma median_of_mem_01 {l : List ℚ} (h01 : ∀ x ∈ l, x = 0 ∨ x = 1) {m : ℚ}
    (hm : median l = some m) : m = 0 ∨ m = 1 / 2 ∨ m = 1 := by
  by_cases hnil : l = []
  · simp [median, hnil] at hm
  have hpos : 0 < l.length := List.length_pos.mpr hnil
  have hperm := List.perm_insertionSort (fun a b : ℚ => a ≤ b) l
  have hlen := List.length_insertionSort (fun a b : ℚ => a ≤ b) l
  set s := l.insertionSort (fun a b : ℚ => a ≤ b) with hs
  have hmem : ∀ i, i < l.length → (s.getD i 0 = 0 ∨ s.getD i 0 = 1) := by
    intro i hi
    exact h01 _ (hperm.mem_iff.1 (getD_mem_of_lt 0 (by rw [hlen]; exact hi)))
  by_cases hodd : l.length % 2 = 1
  · have : some (s.getD (l.length / 2) 0) = some m := by
      simpa [median, hnil, hodd] using hm
    have hio : l.length / 2 < l.length := Nat.div_lt_self hpos (by norm_num)
    rcases hmem _ hio with h0 | h1
    · exact Or.inl (by rw [← Option.some_inj.1 this, h0])
    · exact Or.inr (Or.inr (by rw [← Option.some_inj.1 this, h1]))
  · have heq : some ((s.getD (l.length / 2 - 1) 0 + s.getD (l.length / 2) 0) / 2)
        = some m := by simpa [median, hnil, hodd] using hm
    have hio : l.length / 2 < l.length := Nat.div_lt_self hpos (by norm_num)
    have hio' : l.length / 2 - 1 < l.length := lt_of_le_of_lt (Nat.sub_le _ _) hio
    have hm' : m = (s.getD (l.length / 2 - 1) 0 + s.getD (l.length / 2) 0) / 2 :=
      (Option.some_inj.1 heq).symm
    rcases hmem _ hio' with ha | ha <;> rcases hmem _ hio with hb | hb <;>
      rw [hm', ha, hb] <;> norm_num

lemma mapGender_range {c : Cell} {q : ℚ} (h : mapGender c = some q) :
    q = 0 ∨ q = 1 := by
  cases c with
  | num q' => simp [mapGender] at h
  | missing => simp [mapGender] at h
  | str s =>
      by_cases hf : lowerStr s = "female"
      · simp [mapGender, hf] at h; exact Or.inr h.symm
      · by_cases hml : lowerStr s = "male"
        · simp [mapGender, hf, hml] at h; exact Or.inl h.symm
        · simp [mapGender, hf, hml] at h

/-! ### Helper lemmas: the extremum scan -/

lemma firstMax_cons_none {p : (String × String) × ℚ} {rest}
    (hr : firstMax rest = none) : firstMax (p :: rest) = some p := by
  simp [firstMax, hr]

lemma firstMax_cons_some {p q : (String × String) × ℚ} {rest}
    (hr : firstMax rest = some q) :
    firstMax (p :: rest) = if p.2 < q.2 then some q else some p := by
  simp [firstMax, hr]

lemma firstMax_eq_none_iff (l : List ((String × String) × ℚ)) :
    firstMax l = none ↔ l = [] := by
  cases l with
  | nil => simp [firstMax]
  | cons p rest =>
      cases hr : firstMax rest with
      | none => simp [firstMax_cons_none hr]
      | some q =>
          rw [firstMax_cons_some hr]
          by_cases hpq : p.2 < q.2 <;> simp [hpq]

lemma firstMax_mem : ∀ {l : List ((String × String) × ℚ)} {x},
    firstMax l = some x → x ∈ l := by
  intro l
  induction l with
  | nil => intro x h; simp [firstMax] at h
  | cons p rest ih =>
      intro x h
      cases hr : firstMax rest with
      | none =>
          rw [firstMax_cons_none hr] at h
          exact (Option.some_inj.1 h) ▸ List.mem_cons_self p rest
      | some q =>
          rw [firstMax_cons_some hr] at h
          by_cases hpq : p.2 < q.2
          · rw [if_pos hpq] at h
            exact List.mem_cons_of_mem _ (ih (h ▸ hr))
          · rw [if_neg hpq] at h
            exact (Option.some_inj.1 h) ▸ List.mem_cons_self p rest

lemma firstMax_le : ∀ {l : List ((String × String) × ℚ)} {x},
    firstMax l = some x → ∀ y ∈ l, y.2 ≤ x.2 := by
  intro l
  induction l with
  | nil => intro x h; simp [firstMax] at h
  | cons p rest ih =>
      intro x h y hy
      cases hr : firstMax rest with
      | none =>
          rw [firstMax_cons_none hr] at h
          have : rest = [] := (firstMax_eq_none_iff rest).1 hr
          subst this
          rcases List.mem_cons.1 hy with hyp | hyp
          · rw [hyp, ← Option.some_inj.1 h]
          · simp at hyp
      | some q =>
          rw [firstMax_cons_some hr] at h
          by_cases hpq : p.2 < q.2
          · rw [if_pos hpq] at h
            rcases List.mem_cons.1 hy with hyp | hyp
            · rw [hyp, ← Option.some_inj.1 h]; exact le_of_lt hpq
            · exact ih (h ▸ hr) y hyp
          · rw [if_neg hpq] at h
            rcases List.mem_cons.1 hy with hyp | hyp
            · rw [hyp, ← Option.some_inj.1 h]
            · rw [← Option.some_inj.1 h]
              exact le_trans (ih hr y hyp) (not_lt.1 hpq)

lemma firstMax_first : ∀ {l : List ((String × String) × ℚ)} {x},
    firstMax l = some x →
    ∃ k : ℕ, l[k]? = some x ∧ ∀ j : ℕ, j < k → ∀ y : (String × String) × ℚ, l[j]? = some y → y.2 < x.2 := by
  intro l
  induction l with
  | nil => intro x h; simp [firstMax] at h
  | cons p rest ih =>
      intro x h
      cases hr : firstMax rest with
      | none =>
          rw [firstMax_cons_none hr] at h
          exact ⟨0, by simp [← Option.some_inj.1 h], fun j hj => by omega⟩
      | some q =>
          rw [firstMax_cons_some hr] at h
          by_cases hpq : p.2 < q.2
          · rw [if_pos hpq] at h
            obtain ⟨k, hk, hfirst⟩ := ih (h ▸ hr)
            refine ⟨k + 1, by simpa using hk, ?_⟩
            intro j hj y hy
            cases j with
            | zero =>
                simp at hy
                rw [← hy, ← Option.some_inj.1 h]; exact hpq
            | succ j' =>
                simp at hy
                exact hfirst j' (by omega) y hy
          · rw [if_neg hpq] at h
            exact ⟨0, by simp [← Option.some_inj.1 h], fun j hj => by omega⟩

lemma firstMin_cons_none {p : (String × String) × ℚ} {rest}
    (hr : firstMin rest = none) : firstMin (p :: rest) = some p := by
  simp [firstMin, hr]

lemma firstMin_cons_some {p q : (String × String) × ℚ} {rest}
    (hr : firstMin rest = some q) :
    firstMin (p :: rest) = if q.2 < p.2 then some q else some p := by
  simp [firstMin, hr]

lemma firstMin_eq_none_iff (l : List ((String × String) × ℚ)) :
    firstMin l = none ↔ l = [] := by
  cases l with
  | nil => simp [firstMin]
  | cons p rest =>
      cases hr : firstMin rest with
      | none => simp [firstMin_cons_none hr]
      | some q =>
          rw [firstMin_cons_some hr]
          by_cases hpq : q.2 < p.2 <;> simp [hpq]

lemma firstMin_mem : ∀ {l : List ((String × String) × ℚ)} {x},
    firstMin l = some x → x ∈ l := by
  intro l
  induction l with
  | nil => intro x h; simp [firstMin] at h
  | cons p rest ih =>
      intro x h
      cases hr : firstMin rest with
      | none =>
          rw [firstMin_cons_none hr] at h
          exact (Option.some_inj.1 h) ▸ List.mem_cons_self p rest
      | some q =>
          rw [firstMin_cons_some hr] at h
          by_cases hpq : q.2 < p.2
          · rw [if_pos hpq] at h
            exact List.mem_cons_of_mem _ (ih (h ▸ hr))
          · rw [if_neg hpq] at h
            exact (Option.some_inj.1 h) ▸ List.mem_cons_self p rest

lemma firstMin_ge : ∀ {l : List ((String × String) × ℚ)} {x},
    firstMin l = some x → ∀ y ∈ l, x.2 ≤ y.2 := by
  intro l
  induction l with
  | nil => intro x h; simp [firstMin] at h
  | cons p rest ih =>
      intro x h y hy
      cases hr : firstMin rest with
      | none =>
          rw [firstMin_cons_none hr] at h
          have : rest = [] := (firstMin_eq_none_iff rest).1 hr
          subst this
          rcases List.mem_cons.1 hy with hyp | hyp
          · rw [hyp, ← Option.some_inj.1 h]
          · simp at hyp
      | some q =>
          rw [firstMin_cons_some hr] at h
          by_cases hpq : q.2 < p.2
          · rw [if_pos hpq] at h
            rcases List.mem_cons.1 hy with hyp | hyp
            · rw [hyp, ← Option.some_inj.1 h]; exact le_of_lt hpq
            · exact ih (h ▸ hr) y hyp
          · rw [if_neg hpq] at h
            rcases List.mem_cons.1 hy with hyp | hyp
            · rw [hyp, ← Option.some_inj.1 h]
            · rw [← Option.some_inj.1 h]
              exact le_trans (not_lt.1 hpq) (ih hr y hyp)

lemma firstMin_first : ∀ {l : List ((String × String) × ℚ)} {x},
    firstMin l = some x →
    ∃ k : ℕ, l[k]? = some x ∧ ∀ j : ℕ, j < k → ∀ y : (String × String) × ℚ, l[j]? = some y → x.2 < y.2 := by
  intro l
  induction l with
  | nil => intro x h; simp [firstMin] at h
  | cons p rest ih =>
      intro x h
      cases hr : firstMin rest with
      | none =>
          rw [firstMin_cons_none hr] at h
          exact ⟨0, by simp [← Option.some_inj.1 h], fun j hj => by omega⟩
      | some q =>
          rw [firstMin_cons_some hr] at h
          by_cases hpq : q.2 < p.2
          · rw [if_pos hpq] at h
            obtain ⟨k, hk, hfirst⟩ := ih (h ▸ hr)
            refine ⟨k + 1, by simpa using hk, ?_⟩
            intro j hj y hy
            cases j with
            | zero =>
                simp at hy
                rw [← hy, ← Option.some_inj.1 h]; exact hpq
            | succ j' =>
                simp at hy
                exact hfirst j' (by omega) y hy
          · rw [if_neg hpq] at h
            exact ⟨0, by simp [← Option.some_inj.1 h], fun j hj => by omega⟩

/-! ### Helper lemmas: the loader -/

lemma median_isSome_of_ne_nil {l : List ℚ} (h : l ≠ []) : ∃ m, median l = some m := by
  cases hm : median l with
  | none => exact absurd ((median_eq_none_iff l).1 hm) h
  | some m => exact ⟨m, rfl⟩

lemma find?_map_setCol (cols : List (String × List Cell)) (n : String) (v : List Cell)
    (h : cols.any (fun p => p.1 = n) = true) :
    (cols.map (fun p => if p.1 = n then (n, v) else p)).find? (fun p => p.1 = n)
      = some (n, v) := by
  induction cols with
  | nil => simp at h
  | cons p t ih =>
      rw [List.map_cons]
      by_cases hp : p.1 = n
      · rw [if_pos hp, List.find?_cons_of_pos _ (by simp)]
      · rw [if_neg hp, List.find?_cons_of_neg _ (by simp [hp])]
        apply ih
        simpa [List.any_cons, hp] using h

lemma find?_setCol_self (cols : List (String × List Cell)) (n : String) (v : List Cell) :
    (setCol cols n v).find? (fun p => p.1 = n) = some (n, v) := by
  unfold setCol
  by_cases h : cols.any (fun p => p.1 = n) = true
  · rw [if_pos h]
    exact find?_map_setCol cols n v h
  · rw [if_neg h, List.find?_append]
    have h1 : cols.find? (fun p => p.1 = n) = none :=
      List.find?_eq_none.2 (fun x hx hpx =>
        h (List.any_eq_true.2 ⟨x, hx, hpx⟩))
    rw [h1]
    simp [List.find?]

lemma getCol_setCol_self (cols : List (String × List Cell)) (n : String) (v : List Cell) :
    getCol (setCol cols n v) n = v := by
  simp [getCol, find?_setCol_self]

lemma any_setCol_self (cols : List (String × List Cell)) (n : String) (v : List Cell) :
    (setCol cols n v).any (fun p => p.1 = n) = true :=
  List.any_eq_true.2
    ⟨(n, v), List.mem_of_find?_eq_some (find?_setCol_self cols n v), by simp⟩

lemma dfCols_of_sex {t : Table} {sn : String} {cs : List Cell}
    (h : findSexCol t = some (sn, cs)) :
    dfCols t = setCol (normCols t) "sex_numeric" (sexNumericCells cs) := by
  unfold dfCols
  rw [h]

lemma getCol_dfCols_sex {t : Table} {sn : String} {cs : List Cell}
    (h : findSexCol t = some (sn, cs)) :
    getCol (dfCols t) "sex_numeric" = sexNumericCells cs := by
  rw [dfCols_of_sex h, getCol_setCol_self]

lemma sexNumeric_mem_selected {t : Table} {sn : String} {cs : List Cell}
    (h : findSexCol t = some (sn, cs)) :
    "sex_numeric" ∈ selectedCols t := by
  unfold selectedCols
  rw [dfCols_of_sex h, any_setCol_self]
  simp

lemma selected_ne_nil_of_sex {t : Table} {sn : String} {cs : List Cell}
    (h : findSexCol t = some (sn, cs)) : selectedCols t ≠ [] := by
  intro hnil
  have hmem := sexNumeric_mem_selected h
  rw [hnil] at hmem
  simp at hmem

lemma sexNumeric_not_selected {t : Table} (h : findSexCol t = none) :
    "sex_numeric" ∉ selectedCols t := by
  have hd : dfCols t = normCols t := by unfold dfCols; rw [h]
  have hany : ¬ (normCols t).any (fun p => p.1 = "sex_numeric") = true := by
    intro hc
    obtain ⟨p, hp, hpn⟩ := List.any_eq_true.1 hc
    have hgender : isGenderName p.1 = true := by
      have : p.1 = "sex_numeric" := by simpa using hpn
      rw [this]
      decide
    exact (List.find?_eq_none.1 h p hp) hgender
  unfold selectedCols
  rw [hd, Bool.eq_false_iff.2 hany, if_neg (by simp), List.append_nil]
  intro hmem
  have h5 := List.mem_of_mem_filter hmem
  simp [STANDARD_COLS] at h5

lemma filterMap_some_map {α β : Type} (g : α → β) (l : List α) :
    l.filterMap (fun a => some (g a)) = l.map g := by
  induction l with
  | nil => simp
  | cons a t ih => simp [List.filterMap_cons, ih]

lemma sexNumericCells_of_some {cs : List Cell} {m : ℚ}
    (hm : median ((cs.map mapGender).filterMap id) = some m) :
    sexNumericCells cs = cs.map (fun c => Cell.num ((mapGender c).getD m)) := by
  unfold sexNumericCells
  rw [hm]
  show (cs.map mapGender).map (fun o => Cell.num (o.getD m)) = _
  rw [List.map_map]
  rfl

lemma processCol_eq_some {cells : List Cell} {vals : List ℚ} :
    processCol cells = some vals ↔
      ∃ m, median ((cells.map toNumeric).filterMap id) = some m ∧
        vals = (cells.map toNumeric).map (fun o => o.getD m) := by
  unfold processCol
  cases hmed : median ((cells.map toNumeric).filterMap id) with
  | none =>
      constructor
      · intro h
        exact Option.noConfusion h
      · rintro ⟨m', hm', _⟩
        exact Option.noConfusion hm'
  | some m =>
      constructor
      · intro h
        exact ⟨m, rfl, (Option.some_inj.1 h).symm⟩
      · rintro ⟨m', hm', hv⟩
        have hmm : m' = m := (Option.some_inj.1 hm').symm
        subst hmm
        exact congrArg some hv.symm

lemma processCol_sexNumeric {cs : List Cell} {m : ℚ}
    (hm : median ((cs.map mapGender).filterMap id) = some m) :
    processCol (sexNumericCells cs) = some (cs.map (fun c => (mapGender c).getD m)) := by
  have hcs : cs ≠ [] := by
    intro hnil
    rw [hnil] at hm
    simp [median] at hm
  have h2 : (sexNumericCells cs).map toNumeric
      = cs.map (fun c => some ((mapGender c).getD m)) := by
    rw [sexNumericCells_of_some hm, List.map_map]
    rfl
  rw [processCol_eq_some]
  have h3 : ((sexNumericCells cs).map toNumeric).filterMap id
      = cs.map (fun c => (mapGender c).getD m) := by
    rw [h2, List.filterMap_map]
    exact filterMap_some_map _ cs
  have h4 : cs.map (fun c => (mapGender c).getD m) ≠ [] := by
    simpa using hcs
  obtain ⟨m2, hm2⟩ := median_isSome_of_ne_nil h4
  refine ⟨m2, by rw [h3]; exact hm2, ?_⟩
  rw [h2, List.map_map]
  rfl

lemma loadOutput_of_ne_nil {t : Table} (h : selectedCols t ≠ []) :
    loadOutput t = some ((selectedCols t).filterMap
      (fun c => (processCol (getCol (dfCols t) c)).map (fun v => (c, v)))) := by
  unfold loadOutput
  rw [if_neg h]

lemma loadOutput_mem {t : Table} {c : String} {vals : List ℚ}
    (hc : c ∈ selectedCols t) (hv : processCol (getCol (dfCols t) c) = some vals)
    {out : List (String × List ℚ)} (hout : loadOutput t = some out) :
    (c, vals) ∈ out := by
  have hne : selectedCols t ≠ [] := by
    intro hnil
    rw [hnil] at hc
    simp at hc
  rw [loadOutput_of_ne_nil hne] at hout
  have hout' := (Option.some_inj.1 hout).symm
  subst hout'
  exact List.mem_filterMap.2 ⟨c, hc, by rw [hv]; rfl⟩

lemma mem_loadOutput {t : Table} {out : List (String × List ℚ)}
    {p : String × List ℚ} (hout : loadOutput t = some out) (hp : p ∈ out) :
    p.1 ∈ selectedCols t ∧ processCol (getCol (dfCols t) p.1) = some p.2 := by
  by_cases hne : selectedCols t = []
  · unfold loadOutput at hout
    rw [if_pos hne] at hout
    simp at hout
  · rw [loadOutput_of_ne_nil hne] at hout
    have hout' := (Option.some_inj.1 hout).symm
    subst hout'
    obtain ⟨c, hc, hfc⟩ := List.mem_filterMap.1 hp
    cases hpc : processCol (getCol (dfCols t) c) with
    | none => rw [hpc] at hfc; simp at hfc
    | some v =>
        rw [hpc] at hfc
        simp at hfc
        rw [← hfc]
        exact ⟨hc, by rw [hpc]⟩

/-! ### Helper lemmas: the correlation entries -/

lemma zipWith_mul_self (l : List ℚ) :
    List.zipWith (fun p q => p * q) l l = l.map (fun q => q ^ 2) := by
  induction l with
  | nil => simp
  | cons a t ih => simp [ih, pow_two]

lemma covSum_self (l : List ℚ) : covSum l l = sqDevSum l := by
  unfold covSum sqDevSum
  rw [zipWith_mul_self]

lemma covSum_comm (x y : List ℚ) : covSum x y = covSum y x := by
  unfold covSum
  rw [List.zipWith_comm_of_comm _ mul_comm]

lemma sum_zipWith_getD (x y : List ℚ) :
    (List.zipWith (fun p q => p * q) x y).sum
      = ∑ i ∈ Finset.range (min x.length y.length), x.getD i 0 * y.getD i 0 := by
  induction x generalizing y with
  | nil => simp
  | cons a t ih =>
      cases y with
      | nil => simp
      | cons b u =>
          rw [List.zipWith_cons_cons, List.sum_cons, ih u]
          have hmin : min (a :: t).length (b :: u).length = min t.length u.length + 1 := by
            simp [List.length_cons, Nat.succ_min_succ]
          rw [hmin, Finset.sum_range_succ']
          simp [add_comm]

lemma sum_map_sq_getD (x : List ℚ) :
    (x.map (fun q => q ^ 2)).sum = ∑ i ∈ Finset.range x.length, x.getD i 0 ^ 2 := by
  induction x with
  | nil => simp
  | cons a t ih =>
      rw [List.map_cons, List.sum_cons, ih, List.length_cons, Finset.sum_range_succ']
      simp [add_comm]

lemma sqDevSum_nonneg (l : List ℚ) : 0 ≤ sqDevSum l := by
  unfold sqDevSum
  apply List.sum_nonneg
  intro a ha
  obtain ⟨b, _, hb⟩ := List.mem_map.1 ha
  rw [← hb]
  exact sq_nonneg b

lemma covSum_sq_le (x y : List ℚ) : covSum x y ^ 2 ≤ sqDevSum x * sqDevSum y := by
  unfold covSum sqDevSum
  rw [sum_zipWith_getD, sum_map_sq_getD, sum_map_sq_getD]
  have h1 := Finset.sum_mul_sq_le_sq_mul_sq
    (Finset.range (min (devs x).length (devs y).length))
    (fun i => (devs x).getD i 0) (fun i => (devs y).getD i 0)
  refine le_trans h1 (mul_le_mul ?_ ?_ ?_ ?_)
  · exact Finset.sum_le_sum_of_subset_of_nonneg
      (Finset.range_subset.2 (min_le_left _ _)) (fun i _ _ => sq_nonneg _)
  · exact Finset.sum_le_sum_of_subset_of_nonneg
      (Finset.range_subset.2 (min_le_right _ _)) (fun i _ _ => sq_nonneg _)
  · exact Finset.sum_nonneg (fun i _ => sq_nonneg _)
  · exact Finset.sum_nonneg (fun i _ => sq_nonneg _)

lemma corrEntry_symm (x y : List ℚ) : corrEntry x y = corrEntry y x := by
  unfold corrEntry
  rw [covSum_comm, mul_comm (sqDevSum x) (sqDevSum y),
    mul_comm ((sqDevSum x : ℚ) : ℝ) ((sqDevSum y : ℚ) : ℝ)]

lemma corrEntry_diag {x : List ℚ} (h : sqDevSum x ≠ 0) : corrEntry x x = some 1 := by
  unfold corrEntry
  rw [if_neg (by simpa [mul_self_eq_zero] using h)]
  congr 1
  rw [covSum_self]
  have hnn : (0 : ℝ) ≤ (sqDevSum x : ℝ) := by exact_mod_cast sqDevSum_nonneg x
  rw [Real.sqrt_mul_self hnn]
  apply div_self
  exact_mod_cast h

lemma corrEntry_range {x y : List ℚ} {v : ℝ} (h : corrEntry x y = some v) :
    -1 ≤ v ∧ v ≤ 1 := by
  unfold corrEntry at h
  by_cases hz : sqDevSum x * sqDevSum y = 0
  · rw [if_pos hz] at h
    exact Option.noConfusion h
  · rw [if_neg hz] at h
    have hv : v = (covSum x y : ℝ) / Real.sqrt ((sqDevSum x : ℝ) * (sqDevSum y : ℝ)) :=
      (Option.some_inj.1 h).symm
    obtain ⟨hx, hy⟩ := mul_ne_zero_iff.1 hz
    have hxpos : 0 < sqDevSum x := lt_of_le_of_ne (sqDevSum_nonneg x) (Ne.symm hx)
    have hypos : 0 < sqDevSum y := lt_of_le_of_ne (sqDevSum_nonneg y) (Ne.symm hy)
    have hP : (0 : ℝ) < (sqDevSum x : ℝ) * (sqDevSum y : ℝ) := by
      exact_mod_cast mul_pos hxpos hypos
    have hsq : (0 : ℝ) < Real.sqrt ((sqDevSum x : ℝ) * (sqDevSum y : ℝ)) :=
      Real.sqrt_pos.2 hP
    have hcs : ((covSum x y : ℝ)) ^ 2 ≤ (sqDevSum x : ℝ) * (sqDevSum y : ℝ) := by
      exact_mod_cast covSum_sq_le x y
    have habs : |(covSum x y : ℝ)| ≤ Real.sqrt ((sqDevSum x : ℝ) * (sqDevSum y : ℝ)) := by
      rw [← Real.sqrt_sq_eq_abs]
      exact Real.sqrt_le_sqrt hcs
    have hone : |v| ≤ 1 := by
      rw [hv, abs_div, abs_of_nonneg (Real.sqrt_nonneg _)]
      exact (div_le_one hsq).2 habs
    exact abs_le.1 hone

/-! ### Helper lemmas: the selector seen through its candidates -/

lemma posFilter_some (ab : String × String) (w : ℚ) :
    posFilter (ab, some w) = if 0 < w then some (ab, w) else none := rfl

lemma posFilter_nan (ab : String × String) : posFilter (ab, none) = none := rfl

lemma negFilter_some (ab : String × String) (w : ℚ) :
    negFilter (ab, some w) = if w < 0 then some (ab, w) else none := rfl

lemma negFilter_nan (ab : String × String) : negFilter (ab, none) = none := rfl

lemma mem_posCands {m : CorrMat} {ab : String × String} {v : ℚ} :
    (ab, v) ∈ posCands m ↔ (ab, some v) ∈ offDiagPairs m ∧ 0 < v := by
  unfold posCands
  rw [List.mem_filterMap]
  constructor
  · rintro ⟨p, hp, hf⟩
    obtain ⟨a, o⟩ := p
    cases o with
    | none => rw [posFilter_nan] at hf; exact Option.noConfusion hf
    | some w =>
        rw [posFilter_some] at hf
        by_cases hw : 0 < w
        · rw [if_pos hw] at hf
          have h2 := Option.some_inj.1 hf
          rw [Prod.mk.injEq] at h2
          obtain ⟨h3, h4⟩ := h2
          subst h3
          subst h4
          exact ⟨hp, hw⟩
        · rw [if_neg hw] at hf
          exact Option.noConfusion hf
  · rintro ⟨hp, hv⟩
    exact ⟨(ab, some v), hp, by rw [posFilter_some, if_pos hv]⟩

lemma mem_negCands {m : CorrMat} {ab : String × String} {v : ℚ} :
    (ab, v) ∈ negCands m ↔ (ab, some v) ∈ offDiagPairs m ∧ v < 0 := by
  unfold negCands
  rw [List.mem_filterMap]
  constructor
  · rintro ⟨p, hp, hf⟩
    obtain ⟨a, o⟩ := p
    cases o with
    | none => rw [negFilter_nan] at hf; exact Option.noConfusion hf
    | some w =>
        rw [negFilter_some] at hf
        by_cases hw : w < 0
        · rw [if_pos hw] at hf
          have h2 := Option.some_inj.1 hf
          rw [Prod.mk.injEq] at h2
          obtain ⟨h3, h4⟩ := h2
          subst h3
          subst h4
          exact ⟨hp, hw⟩
        · rw [if_neg hw] at hf
          exact Option.noConfusion hf
  · rintro ⟨hp, hv⟩
    exact ⟨(ab, some v), hp, by rw [negFilter_some, if_pos hv]⟩

lemma posCands_nil_iff {m : CorrMat} :
    posCands m = [] ↔ ∀ p ∈ offDiagPairs m, ∀ v : ℚ, p.2 = some v → v ≤ 0 := by
  unfold posCands
  rw [List.filterMap_eq_nil_iff]
  constructor
  · intro h p hp v hv
    have h2 : posFilter (p.1, some v) = none := by
      rw [← hv]
      exact h p hp
    rw [posFilter_some] at h2
    by_contra hlt
    rw [if_pos (not_le.1 hlt)] at h2
    exact Option.noConfusion h2
  · intro h p hp
    obtain ⟨a, o⟩ := p
    cases o with
    | none => exact posFilter_nan a
    | some v =>
        rw [posFilter_some, if_neg (not_lt.2 (h (a, some v) hp v rfl))]

lemma negCands_nil_iff {m : CorrMat} :
    negCands m = [] ↔ ∀ p ∈ offDiagPairs m, ∀ v : ℚ, p.2 = some v → 0 ≤ v := by
  unfold negCands
  rw [List.filterMap_eq_nil_iff]
  constructor
  · intro h p hp v hv
    have h2 : negFilter (p.1, some v) = none := by
      rw [← hv]
      exact h p hp
    rw [negFilter_some] at h2
    by_contra hlt
    rw [if_pos (not_le.1 hlt)] at h2
    exact Option.noConfusion h2
  · intro h p hp
    obtain ⟨a, o⟩ := p
    cases o with
    | none => exact negFilter_nan a
    | some v =>
        rw [negFilter_some, if_neg (not_lt.2 (h (a, some v) hp v rfl))]

lemma mem_offDiag_ne {m : CorrMat} {p : (String × String) × Option ℚ}
    (hp : p ∈ offDiagPairs m) : p.1.1 ≠ p.1.2 := by
  unfold offDiagPairs at hp
  have h2 := (List.mem_filter.1 hp).2
  simpa using h2

lemma get_extreme_pos_eq (m : CorrMat) :
    get_extreme_correlations m true
      = (firstMax (posCands m)).map (fun pv => (pv.1.1, pv.1.2, pv.2)) := by
  unfold get_extreme_correlations
  cases hf : firstMax (posCands m) <;> simp [hf]

lemma get_extreme_neg_eq (m : CorrMat) :
    get_extreme_correlations m false
      = (firstMin (negCands m)).map (fun pv => (pv.1.1, pv.1.2, pv.2)) := by
  unfold get_extreme_correlations
  cases hf : firstMin (negCands m) <;> simp [hf]

lemma get_extreme_pos_some {m : CorrMat} {a b : String} {v : ℚ} :
    get_extreme_correlations m true = some (a, b, v)
      ↔ firstMax (posCands m) = some ((a, b), v) := by
  rw [get_extreme_pos_eq]
  cases hf : firstMax (posCands m) with
  | none => simp
  | some pv =>
      obtain ⟨⟨a2, b2⟩, v2⟩ := pv
      simp [Prod.mk.injEq, and_assoc]

lemma get_extreme_neg_some {m : CorrMat} {a b : String} {v : ℚ} :
    get_extreme_correlations m false = some (a, b, v)
      ↔ firstMin (negCands m) = some ((a, b), v) := by
  rw [get_extreme_neg_eq]
  cases hf : firstMin (negCands m) with
  | none => simp
  | some pv =>
      obtain ⟨⟨a2, b2⟩, v2⟩ := pv
      simp [Prod.mk.injEq, and_assoc]

lemma get_extreme_pos_none {m : CorrMat} :
    get_extreme_correlations m true = none ↔ posCands m = [] := by
  rw [get_extreme_pos_eq, ← firstMax_eq_none_iff]
  cases firstMax (posCands m) <;> simp

lemma get_extreme_neg_none {m : CorrMat} :
    get_extreme_correlations m false = none ↔ negCands m = [] := by
  rw [get_extreme_neg_eq, ← firstMin_eq_none_iff]
  cases firstMin (negCands m) <;> simp

/-! ### Claim C9 helper -/

lemma filterMap_drop_none {α β : Type} [DecidableEq α] {g : α → Option β} {c : α}
    (hg : g c = none) : ∀ l : List α,
    l.filterMap g = (l.filter (fun x => x ≠ c)).filterMap g := by
  intro l
  induction l with
  | nil => rfl
  | cons a t ih =>
      by_cases ha : a = c
      · subst ha
        rw [List.filterMap_cons_none hg, List.filter_cons, if_neg (by simp), ih]
      · rw [List.filter_cons, if_pos (by simp [ha])]
        cases hga : g a with
        | none => rw [List.filterMap_cons_none hga, List.filterMap_cons_none hga, ih]
        | some b => rw [List.filterMap_cons_some hga, List.filterMap_cons_some hga, ih]

/-! ### The claims -/

/-- Gender mapping exactly as the sentence of claim C1 states it: the
value `"female"` maps to `1` and any other present value to `0`; only an
absent value is left missing, to be imputed with the median afterwards.
This definition follows the spec wording and is compared against the
code's `mapGender`. -/
def specC1GenderMap : Cell → Option ℚ
  | Cell.missing => none
  | Cell.str s => some (if lowerStr s = "female" then 1 else 0)
  | Cell.num _ => some 0

/-- The derived gender column according to the claim C1 wording. -/
def specC1GenderDerived (cs : List Cell) : List ℚ :=
  match median ((cs.map specC1GenderMap).filterMap id) with
  | some m => (cs.map specC1GenderMap).map (fun o => o.getD m)
  | none => []

/-- C1 counterexample: on the gender column `["female", "male", "x"]` the
program maps `"x"` to `NaN` and imputes it with the mapped column's
median `1/2`, whereas the claim's mapping sends any non-female value to
`0`, which would yield `[1, 0, 0]`. -/
theorem C1_counterexample :
    (loadTable ⟨[("Sex", [Cell.str "female", Cell.str "male", Cell.str "x"]),
        ("Fare", [Cell.num 1, Cell.num 2, Cell.num 3])]⟩).output
      = some [("fare", [1, 2, 3]), ("sex_numeric", [1, 0, 1/2])] ∧
    specC1GenderDerived [Cell.str "female", Cell.str "male", Cell.str "x"] = [1, 0, 0] ∧
    ([1, 0, (1 : ℚ)/2] : List ℚ) ≠ [1, 0, 0] :=
  ⟨by with_unfolding_all decide, by with_unfolding_all decide,
    by with_unfolding_all decide⟩

/-- C1 (amended): the Loader maps `"female"` (case-insensitively) to `1`
and `"male"` to `0`; any other or absent value becomes missing and is
replaced with the gender-indicator column's median computed after the
mapping, and the resulting column is the `sex_numeric` column of the
output. -/
theorem C1_amended (t : Table) (sn : String) (cs : List Cell) (m : ℚ)
    (out : List (String × List ℚ))
    (hfind : findSexCol t = some (sn, cs))
    (hm : median ((cs.map mapGender).filterMap id) = some m)
    (hout : (loadTable t).output = some out) :
    ("sex_numeric", cs.map (fun c => (mapGender c).getD m)) ∈ out ∧
    (∀ s, mapGender (Cell.str s) =
      (if lowerStr s = "female" then some 1
       else if lowerStr s = "male" then some 0 else none)) ∧
    mapGender Cell.missing = none := by
  refine ⟨?_, fun s => rfl, rfl⟩
  exact loadOutput_mem (sexNumeric_mem_selected hfind)
    (by rw [getCol_dfCols_sex hfind]; exact processCol_sexNumeric hm) hout

/-- C1 witness: a concrete table whose gender column holds `"female"`,
`"MALE"` and a missing cell; the derived column is `[1, 0, 1/2]`. -/
theorem C1_amended_witness :
    ("sex_numeric", [(1 : ℚ), 0, 1/2]) ∈ [("sex_numeric", [(1 : ℚ), 0, 1/2])] := by
  have h := (C1_amended ⟨[("Sex", [Cell.str "female", Cell.str "MALE", Cell.missing])]⟩
    "sex" [Cell.str "female", Cell.str "MALE", Cell.missing] (1/2)
    [("sex_numeric", [1, 0, 1/2])]
    (by with_unfolding_all decide) (by with_unfolding_all decide)
    (by with_unfolding_all decide)).1
  have he : [Cell.str "female", Cell.str "MALE", Cell.missing].map
      (fun c => (mapGender c).getD (1/2)) = [(1 : ℚ), 0, 1/2] := by
    with_unfolding_all decide
  rw [he] at h
  exact h

/-- C3 counterexample: a gender column `["Female", "Male", "unknown"]`
yields the derived value `1/2` (the imputed median), which is neither
`0` nor `1`. -/
theorem C3_counterexample :
    (loadTable ⟨[("Gender", [Cell.str "Female", Cell.str "Male",
        Cell.str "unknown"])]⟩).output = some [("sex_numeric", [1, 0, 1/2])] ∧
    ((1 : ℚ)/2) ∈ ([1, 0, (1 : ℚ)/2] : List ℚ) ∧
    ¬ ((1 : ℚ)/2 = 0 ∨ (1 : ℚ)/2 = 1) :=
  ⟨by with_unfolding_all decide, by with_unfolding_all decide,
    by with_unfolding_all decide⟩

/-- C3 (amended): every value of the derived gender-indicator column is
`0`, `1`, or the imputed median `1/2`. -/
theorem C3_amended (t : Table) (out : List (String × List ℚ)) (vals : List ℚ)
    (hout : (loadTable t).output = some out)
    (hmem : ("sex_numeric", vals) ∈ out) :
    ∀ v ∈ vals, v = 0 ∨ v = 1 ∨ v = 1/2 := by
  obtain ⟨hsel, hpc⟩ := mem_loadOutput hout hmem
  have hsel' : "sex_numeric" ∈ selectedCols t := hsel
  have hpc' : processCol (getCol (dfCols t) "sex_numeric") = some vals := hpc
  cases hfind : findSexCol t with
  | none => exact absurd hsel' (sexNumeric_not_selected hfind)
  | some pc =>
      obtain ⟨sn, cs⟩ := pc
      rw [getCol_dfCols_sex hfind] at hpc'
      cases hmed : median ((cs.map mapGender).filterMap id) with
      | none =>
          exfalso
          have hnil := (median_eq_none_iff _).1 hmed
          have hall : ∀ o ∈ cs.map mapGender, o = none := by
            intro o ho
            simpa using List.filterMap_eq_nil_iff.1 hnil o ho
          have hcells : sexNumericCells cs
              = (cs.map mapGender).map (fun o =>
                  match o with
                  | some q => Cell.num q
                  | none => Cell.missing) := by
            unfold sexNumericCells
            rw [hmed]
          have hzero : processCol (sexNumericCells cs) = none := by
            unfold processCol
            have h0 : (((sexNumericCells cs).map toNumeric).filterMap id) = [] := by
              apply List.filterMap_eq_nil_iff.2
              intro a ha
              obtain ⟨cell, hcell, rfl⟩ := List.mem_map.1 ha
              rw [hcells] at hcell
              obtain ⟨o, ho, rfl⟩ := List.mem_map.1 hcell
              rw [hall o ho]
              rfl
            rw [h0]
            rfl
          rw [hzero] at hpc'
          exact Option.noConfusion hpc'
      | some m =>
          rw [processCol_sexNumeric hmed] at hpc'
          have hvals : vals = cs.map (fun c => (mapGender c).getD m) :=
            (Option.some_inj.1 hpc').symm
          have h01 : ∀ x ∈ (cs.map mapGender).filterMap id, x = 0 ∨ x = 1 := by
            intro x hx
            obtain ⟨o, ho, hid⟩ := List.mem_filterMap.1 hx
            obtain ⟨c, hc, rfl⟩ := List.mem_map.1 ho
            exact mapGender_range (by simpa using hid)
          have hm01 := median_of_mem_01 h01 hmed
          intro v hv
          rw [hvals] at hv
          obtain ⟨c, hc, rfl⟩ := List.mem_map.1 hv
          cases ho : mapGender c with
          | some q =>
              rcases mapGender_range ho with h0 | h1
              · left
                rw [h0]
                rfl
              · right
                left
                rw [h1]
                rfl
          | none =>
              rcases hm01 with h | h | h
              · left
                rw [h]
                rfl
              · right
                right
                rw [h]
                rfl
              · right
                left
                rw [h]
                rfl

/-- C3 witness: the derived column `[1, 0, 1/2]` of a concrete table with
gender column `["Female", "Male", "unknown"]` takes only the allowed
values. -/
theorem C3_amended_witness :
    (1 : ℚ)/2 = 0 ∨ (1 : ℚ)/2 = 1 ∨ (1 : ℚ)/2 = 1/2 :=
  C3_amended ⟨[("Gender", [Cell.str "Female", Cell.str "Male", Cell.str "unknown"])]⟩
    [("sex_numeric", [1, 0, 1/2])] [1, 0, 1/2]
    (by with_unfolding_all decide) (by with_unfolding_all decide)
    ((1 : ℚ)/2) (by with_unfolding_all decide)

/-- C4: every column retained in the loader's output equals its source
column coerced to numbers with every missing entry replaced by that
column's median (in particular the retained column has no missing
values, its type being a plain list of numbers). -/
theorem C4_retained_columns_imputed (t : Table) (out : List (String × List ℚ))
    (hout : (loadTable t).output = some out) :
    ∀ p ∈ out, ∃ m : ℚ,
      median (((getCol (dfCols t) p.1).map toNumeric).filterMap id) = some m ∧
      p.2 = ((getCol (dfCols t) p.1).map toNumeric).map (fun o => o.getD m) := by
  intro p hp
  obtain ⟨hsel, hpc⟩ := mem_loadOutput hout hp
  exact processCol_eq_some.1 hpc

/-- C4 witness: the column `[1, missing, 3]` is returned as `[1, 2, 3]`,
the missing entry imputed with the median `2`. -/
theorem C4_retained_columns_imputed_witness :
    ∃ m : ℚ,
      median (((getCol (dfCols ⟨[("fare", [Cell.num 1, Cell.missing,
          Cell.num 3])]⟩) "fare").map toNumeric).filterMap id) = some m ∧
      ([1, 2, 3] : List ℚ) = ((getCol (dfCols ⟨[("fare", [Cell.num 1,
          Cell.missing, Cell.num 3])]⟩) "fare").map toNumeric).map
          (fun o => o.getD m) :=
  C4_retained_columns_imputed ⟨[("fare", [Cell.num 1, Cell.missing, Cell.num 3])]⟩
    [("fare", [1, 2, 3])] (by with_unfolding_all decide)
    ("fare", [1, 2, 3]) (by with_unfolding_all decide)

/-- C7: when the path does not refer to a readable file the loader
returns no table (and, being a total function, raises no fault). -/
theorem C7_unreadable_path_no_data (env : String → Option Table) (path : String)
    (h : env path = none) : (load_and_preprocess_data env path).output = none := by
  unfold load_and_preprocess_data
  rw [h]

/-- C7 witness: an environment with no readable file at all. -/
theorem C7_unreadable_path_no_data_witness :
    (load_and_preprocess_data (fun _ => none) "titanic.xlsx").output = none :=
  C7_unreadable_path_no_data (fun _ => none) "titanic.xlsx" rfl

/-- C8: when zero usable numeric columns remain (no candidate or gender
column is selected, or every selected column is dropped by the
imputation loop), the loader returns no usable data: either `None` or an
empty table. -/
theorem C8_zero_usable_columns (t : Table)
    (h : selectedCols t = [] ∨
      ∀ c ∈ selectedCols t, processCol (getCol (dfCols t) c) = none) :
    (loadTable t).output = none ∨ (loadTable t).output = some [] := by
  rcases h with h | h
  · left
    show loadOutput t = none
    unfold loadOutput
    rw [if_pos h]
  · by_cases hnil : selectedCols t = []
    · left
      show loadOutput t = none
      unfold loadOutput
      rw [if_pos hnil]
    · right
      show loadOutput t = some []
      rw [loadOutput_of_ne_nil hnil]
      congr 1
      apply List.filterMap_eq_nil_iff.2
      intro c hc
      rw [h c hc]
      rfl

/-- C8 witness: a table whose only candidate column is entirely
non-numeric. -/
theorem C8_zero_usable_columns_witness :
    (loadTable ⟨[("age", [Cell.str "abc"])]⟩).output = none ∨
    (loadTable ⟨[("age", [Cell.str "abc"])]⟩).output = some [] :=
  C8_zero_usable_columns ⟨[("age", [Cell.str "abc"])]⟩
    (Or.inr (by with_unfolding_all decide))

/-- C9: a selected column whose cells are all non-numeric is dropped from
the output (no output column bears its name), the caller is informed by
a warning naming the column, and the remaining columns are returned
exactly as they would be without it. -/
theorem C9_all_nonnumeric_dropped (t : Table) (c : String)
    (hc : c ∈ selectedCols t)
    (hnn : ∀ cell ∈ getCol (dfCols t) c, toNumeric cell = none) :
    (∀ out, (loadTable t).output = some out → ∀ p ∈ out, p.1 ≠ c) ∧
    dropWarning c ∈ (loadTable t).messages ∧
    (loadTable t).output = some (((selectedCols t).filter (fun c2 => c2 ≠ c)).filterMap
      (fun c2 => (processCol (getCol (dfCols t) c2)).map (fun v => (c2, v)))) := by
  have hne : selectedCols t ≠ [] := fun hnil => by
    rw [hnil] at hc
    simp at hc
  have hdrop : processCol (getCol (dfCols t) c) = none := by
    unfold processCol
    have h0 : (((getCol (dfCols t) c).map toNumeric).filterMap id) = [] := by
      apply List.filterMap_eq_nil_iff.2
      intro a ha
      obtain ⟨cell, hcell, rfl⟩ := List.mem_map.1 ha
      simpa using hnn cell hcell
    rw [h0]
    rfl
  refine ⟨?_, ?_, ?_⟩
  · intro out hout p hp
    obtain ⟨hsel, hpc⟩ := mem_loadOutput hout hp
    intro hpc1
    rw [hpc1, hdrop] at hpc
    exact Option.noConfusion hpc
  · show dropWarning c ∈ loadMessages t
    unfold loadMessages
    apply List.mem_append.2
    right
    rw [if_neg hne]
    exact List.mem_map.2 ⟨c, List.mem_filter.2 ⟨hc, by simp [hdrop]⟩, rfl⟩
  · show loadOutput t = _
    rw [loadOutput_of_ne_nil hne]
    congr 1
    exact filterMap_drop_none (by rw [hdrop]; rfl) _

/-- C9 witness: the all-text column `"Age "` (note the normalization of
its name) is dropped with a warning while `"fare"` survives. -/
theorem C9_all_nonnumeric_dropped_witness :
    dropWarning "age" ∈ (loadTable ⟨[("Age ", [Cell.str "abc"]),
      ("fare", [Cell.num 1, Cell.num 2])]⟩).messages :=
  (C9_all_nonnumeric_dropped ⟨[("Age ", [Cell.str "abc"]),
      ("fare", [Cell.num 1, Cell.num 2])]⟩ "age"
    (by with_unfolding_all decide) (by with_unfolding_all decide)).2.1

/-- Correlation matrix of the spec's concrete example for claim C2: the
unique maximum off-diagonal value `0.81` links `"fare"` and `"class"`. -/
def exampleMatrixC2 : CorrMat :=
  ⟨["class", "fare", "age"],
   [[some 1, some (81/100), some (3/10)],
    [some (81/100), some 1, some (-1/5)],
    [some (3/10), some (-1/5), some 1]]⟩

/-- C2: in positive mode the selector returns an off-diagonal pair whose
value is strictly positive and maximal among the strictly positive
off-diagonal values, and returns nothing exactly when every defined
off-diagonal value is at most `0`; negative mode is symmetric; and on
the concrete example matrix positive mode returns
`("fare", "class", 0.81)` up to order within the pair. -/
theorem C2_extremum_selection :
    (∀ (m : CorrMat) (a b : String) (v : ℚ),
        get_extreme_correlations m true = some (a, b, v) →
        ((a, b), some v) ∈ offDiagPairs m ∧ 0 < v ∧
          ∀ p ∈ offDiagPairs m, ∀ u : ℚ, p.2 = some u → 0 < u → u ≤ v) ∧
    (∀ m : CorrMat, get_extreme_correlations m true = none ↔
        ∀ p ∈ offDiagPairs m, ∀ u : ℚ, p.2 = some u → u ≤ 0) ∧
    (∀ (m : CorrMat) (a b : String) (v : ℚ),
        get_extreme_correlations m false = some (a, b, v) →
        ((a, b), some v) ∈ offDiagPairs m ∧ v < 0 ∧
          ∀ p ∈ offDiagPairs m, ∀ u : ℚ, p.2 = some u → u < 0 → v ≤ u) ∧
    (∀ m : CorrMat, get_extreme_correlations m false = none ↔
        ∀ p ∈ offDiagPairs m, ∀ u : ℚ, p.2 = some u → 0 ≤ u) ∧
    (get_extreme_correlations exampleMatrixC2 true = some ("class", "fare", 81/100) ∨
      get_extreme_correlations exampleMatrixC2 true = some ("fare", "class", 81/100)) := by
  refine ⟨?_, ?_, ?_, ?_, ?_⟩
  · intro m a b v h
    have hf := get_extreme_pos_some.1 h
    obtain ⟨hoff, hv⟩ := mem_posCands.1 (firstMax_mem hf)
    refine ⟨hoff, hv, ?_⟩
    intro p hp u hu hupos
    have hp2 : (p.1, some u) ∈ offDiagPairs m := by
      rw [← hu]
      exact hp
    exact firstMax_le hf (p.1, u) (mem_posCands.2 ⟨hp2, hupos⟩)
  · intro m
    rw [get_extreme_pos_none]
    exact posCands_nil_iff
  · intro m a b v h
    have hf := get_extreme_neg_some.1 h
    obtain ⟨hoff, hv⟩ := mem_negCands.1 (firstMin_mem hf)
    refine ⟨hoff, hv, ?_⟩
    intro p hp u hu huneg
    have hp2 : (p.1, some u) ∈ offDiagPairs m := by
      rw [← hu]
      exact hp
    exact firstMin_ge hf (p.1, u) (mem_negCands.2 ⟨hp2, huneg⟩)
  · intro m
    rw [get_extreme_neg_none]
    exact negCands_nil_iff
  · left
    with_unfolding_all decide

/-- C2 witness: the positive-mode result on the example matrix is a
maximal strictly positive off-diagonal pair. -/
theorem C2_extremum_selection_witness :
    (("class", "fare"), some ((81 : ℚ)/100)) ∈ offDiagPairs exampleMatrixC2 ∧
    0 < (81 : ℚ)/100 ∧
    ∀ p ∈ offDiagPairs exampleMatrixC2, ∀ u : ℚ,
      p.2 = some u → 0 < u → u ≤ (81 : ℚ)/100 :=
  C2_extremum_selection.1 exampleMatrixC2 "class" "fare" (81/100)
    (by with_unfolding_all decide)

/-- C5: the selector never returns a self-pair, in either mode. -/
theorem C5_never_self_pair (m : CorrMat) (mode : Bool) (a b : String) (v : ℚ)
    (h : get_extreme_correlations m mode = some (a, b, v)) : a ≠ b := by
  cases mode with
  | true =>
      have hf := get_extreme_pos_some.1 h
      exact mem_offDiag_ne (mem_posCands.1 (firstMax_mem hf)).1
  | false =>
      have hf := get_extreme_neg_some.1 h
      exact mem_offDiag_ne (mem_negCands.1 (firstMin_mem hf)).1

/-- C5 witness: a concrete two-column matrix returns a non-self pair. -/
theorem C5_never_self_pair_witness : ("fare" : String) ≠ "age" :=
  C5_never_self_pair ⟨["fare", "age"], [[some 1, some (3/10)], [some (3/10), some 1]]⟩
    true "fare" "age" (3/10) (by with_unfolding_all decide)

/-- C10: the selector is a pure function (two invocations on the same
matrix agree), and any returned pair is the first candidate, in the
matrix's flattening order, attaining the extreme value: every earlier
candidate is strictly worse, so ties are resolved towards the earliest
pair. -/
theorem C10_deterministic_first_extreme :
    (∀ (m : CorrMat) (mode : Bool),
        get_extreme_correlations m mode = get_extreme_correlations m mode) ∧
    (∀ (m : CorrMat) (a b : String) (v : ℚ),
        get_extreme_correlations m true = some (a, b, v) →
        ∃ k : ℕ, (posCands m)[k]? = some ((a, b), v) ∧
          ∀ j : ℕ, j < k → ∀ y : (String × String) × ℚ,
            (posCands m)[j]? = some y → y.2 < v) ∧
    (∀ (m : CorrMat) (a b : String) (v : ℚ),
        get_extreme_correlations m false = some (a, b, v) →
        ∃ k : ℕ, (negCands m)[k]? = some ((a, b), v) ∧
          ∀ j : ℕ, j < k → ∀ y : (String × String) × ℚ,
            (negCands m)[j]? = some y → v < y.2) := by
  refine ⟨fun m mode => rfl, ?_, ?_⟩
  · intro m a b v h
    exact firstMax_first (get_extreme_pos_some.1 h)
  · intro m a b v h
    exact firstMin_first (get_extreme_neg_some.1 h)

/-- C10 witness: on a matrix where every off-diagonal value ties at
`1/2`, the selector picks the first flattened pair `("a", "b")`. -/
theorem C10_deterministic_first_extreme_witness :
    ∃ k : ℕ, (posCands ⟨["a", "b", "d"],
      [[some 1, some (1/2), some (1/2)],
       [some (1/2), some 1, some (1/2)],
       [some (1/2), some (1/2), some 1]]⟩)[k]? = some (("a", "b"), 1/2) ∧
      ∀ j : ℕ, j < k → ∀ y : (String × String) × ℚ,
        (posCands ⟨["a", "b", "d"],
          [[some 1, some (1/2), some (1/2)],
           [some (1/2), some 1, some (1/2)],
           [some (1/2), some (1/2), some 1]]⟩)[j]? = some y → y.2 < 1/2 :=
  C10_deterministic_first_extreme.2.1 ⟨["a", "b", "d"],
      [[some 1, some (1/2), some (1/2)],
       [some (1/2), some 1, some (1/2)],
       [some (1/2), some (1/2), some 1]]⟩ "a" "b" (1/2)
    (by with_unfolding_all decide)

/-- C6 counterexample: the loader keeps the constant column
`[5, 5]`, whose correlation with itself is `NaN` rather than `1.0`: the
diagonal of the correlation matrix is not `1.0` for every retained
column. -/
theorem C6_counterexample :
    (loadTable ⟨[("fare", [Cell.num 5, Cell.num 5])]⟩).output
      = some [("fare", [5, 5])] ∧
    (calculate_correlation [("fare", [5, 5])]).entry 0 0 = none ∧
    (calculate_correlation [("fare", [5, 5])]).entry 0 0 ≠ some 1 := by
  have hnone : (calculate_correlation [("fare", [5, 5])]).entry 0 0 = none := by
    show corrEntry (colAt [("fare", [5, 5])] 0) (colAt [("fare", [5, 5])] 0) = none
    unfold corrEntry
    rw [if_pos (by with_unfolding_all decide :
      sqDevSum (colAt [("fare", [5, 5])] 0) * sqDevSum (colAt [("fare", [5, 5])] 0) = 0)]
  exact ⟨by with_unfolding_all decide, hnone, by rw [hnone]; simp⟩

/-- C6 (amended): the correlation matrix of a loader output is square
(indexed by the retained column names) and symmetric; the diagonal entry
of every retained column with non-zero squared-deviation sum is exactly
`1.0`, while a constant (or too short) column has an undefined (`NaN`)
diagonal entry; and every defined entry lies in `[-1, 1]`. -/
theorem C6_amended (t : Table) (out : List (String × List ℚ))
    (hout : (loadTable t).output = some out) :
    (calculate_correlation out).names = out.map (fun p => p.1) ∧
    (∀ i j : ℕ, (calculate_correlation out).entry i j
        = (calculate_correlation out).entry j i) ∧
    (∀ i : ℕ, sqDevSum (colAt out i) ≠ 0 →
        (calculate_correlation out).entry i i = some 1) ∧
    (∀ (i j : ℕ) (v : ℝ), (calculate_correlation out).entry i j = some v →
        -1 ≤ v ∧ v ≤ 1) :=
  ⟨rfl, fun i j => corrEntry_symm _ _, fun i h => corrEntry_diag h,
    fun i j v h => corrEntry_range h⟩

/-- C6 witness: the non-constant loaded column `[1, 2, 3]` has diagonal
correlation exactly `1`. -/
theorem C6_amended_witness :
    (calculate_correlation [("fare", [(1 : ℚ), 2, 3])]).entry 0 0 = some 1 :=
  (C6_amended ⟨[("fare", [Cell.num 1, Cell.num 2, Cell.num 3])]⟩
    [("fare", [1, 2, 3])] (by with_unfolding_all decide)).2.2.1 0
    (by with_unfolding_all decide)

end Askjda
